import Mathlib

/-!
# Verification of codecombine (src/codecombine/combine.py)

Shallow embedding of the CodeCombine utility: a directory tree is walked
top-down, ignored folders are pruned by substring match on their base name,
and for each visited folder with at least one file matching a configured
extension suffix, one output artifact is produced containing the matching
files' contents separated by path-labeled headers.

Modelling conventions:
* A file is a name plus `Option String` content; `none` models bytes that
  raise `UnicodeDecodeError` when read as UTF-8, `some c` models a file
  whose decoded content is `c`.
* The OS path separator is fixed to the POSIX `/`; `os.path.relpath` of a
  directory at segments `rel` below the root is `String.intercalate "/" rel`
  (and `"."` for the root itself, modelled by `rel = []`).
* `os.walk(root)` with the in-place `dirnames[:] = ...` pruning is modelled
  by `walkDir` / `walkSubs`: the root is always emitted; a subdirectory whose
  name matches the ignore predicate is never descended into.
* Python `str.isalnum` is modelled by `Char.isAlphanum`.
* The run-level effects of `combine_files_by_folder` (line 53: early return
  when the root does not exist; line 57: creation of the output directory)
  are captured in the `RunResult` record.
-/

/-- A file in the modelled filesystem: its base name and its content.
`none` models a file whose bytes are not valid UTF-8 (reading it raises
`UnicodeDecodeError`). -/
structure FSFile where
  name : String
  content : Option String
deriving DecidableEq, Repr

/-- A directory in the modelled filesystem: base name, immediate files,
and immediate subdirectories. -/
inductive FSDir : Type where
  | mk (name : String) (files : List FSFile) (subdirs : List FSDir) : FSDir

/-- Base name of a directory (`os.path.basename`). -/
def FSDir.name : FSDir → String
  | .mk n _ _ => n

/-- Immediate files of a directory. -/
def FSDir.files : FSDir → List FSFile
  | .mk _ fs _ => fs

/-- Immediate subdirectories of a directory. -/
def FSDir.subdirs : FSDir → List FSDir
  | .mk _ _ ds => ds

/-- Decidable substring containment on character lists, the semantics of
Python's `token in name` used at combine.py line 41. -/
def substrB (needle : List Char) : List Char → Bool
  | [] => needle.isEmpty
  | c :: cs => needle.isPrefixOf (c :: cs) || substrB needle cs

/-- combine.py line 28: replace every character that is not alphanumeric,
`-` or `_` by `_`. -/
def sanitize_filename (filename : String) : String :=
  String.mk (filename.data.map (fun c =>
    if c.isAlphanum || c = '-' || c = '_' then c else '_'))

/-- combine.py line 41: a folder is ignored iff some token of the ignore
list occurs as a substring of its name. -/
def should_ignore_folder (folder_name : String) (ignore_list : List String) : Bool :=
  ignore_list.any (fun ignore_name => substrB ignore_name.data folder_name.data)

/-- One item of the `os.walk` sequence, after the in-place pruning of
`dirnames`: the directory's path relative to the root (as segments), its
base name, and its immediate files. -/
structure Visit where
  rel : List String
  dirName : String
  files : List FSFile
deriving DecidableEq, Repr

mutual

/-- combine.py line 60: the `os.walk(root_folder)` sequence with the
line-62 pruning applied. The current directory is always emitted (the
line-64 base-name check happens later, at processing time); subdirectories
whose names match the ignore predicate are removed before descending. -/
def walkDir (ignore_folders : List String) (rel : List String) : FSDir → List Visit
  | .mk n fs ds => ⟨rel, n, fs⟩ :: walkSubs ignore_folders rel ds

/-- Walk the (pruned) subdirectory list, left to right: a subdirectory whose
name matches the ignore predicate is skipped entirely together with its
whole subtree (combine.py line 62). -/
def walkSubs (ignore_folders : List String) (rel : List String) : List FSDir → List Visit
  | [] => []
  | d :: ds =>
      (if should_ignore_folder d.name ignore_folders then []
       else walkDir ignore_folders (rel ++ [d.name]) d) ++ walkSubs ignore_folders rel ds

end

mutual

/-- All directories of a tree, paired with their path (in segments) relative
to the point where the enumeration starts. This is the unpruned tree, used
to speak about directories that the walk never reaches. -/
def dirsAt (rel : List String) : FSDir → List (List String × FSDir)
  | .mk n fs ds => (rel, FSDir.mk n fs ds) :: dirsAtList rel ds

/-- `dirsAt` over a list of subdirectories. -/
def dirsAtList (rel : List String) : List FSDir → List (List String × FSDir)
  | [] => []
  | d :: ds => dirsAt (rel ++ [d.name]) d ++ dirsAtList rel ds

end

/-- One file entry of an output artifact: the containing directory's path
relative to the root, the file's base name, and its content (`none` when the
file was undecodable and only the warning placeholder was written). -/
structure Entry where
  dir : List String
  fname : String
  content : Option String
deriving DecidableEq, Repr

/-- One output artifact: its path and the entries written into it, in order. -/
structure Artifact where
  path : String
  entries : List Entry
deriving DecidableEq, Repr

/-- Concatenation of a list of strings, in order. -/
def concatStrings : List String → String
  | [] => ""
  | s :: rest => s ++ concatStrings rest

/-- combine.py line 83: the path of an included file relative to the root. -/
def fileRelStr (dir : List String) (fname : String) : String :=
  String.intercalate "/" (dir ++ [fname])

/-- combine.py line 93: the placeholder line written when reading a file
raises `UnicodeDecodeError`. -/
def placeholderLine (frel : String) : String :=
  "# Warning: Content of \x27" ++ frel ++ "\x27 could not be included due to encoding issues.\n"

/-- combine.py lines 85-95: the bytes one file contributes to its artifact —
header line, blank line, content (or placeholder), two trailing newlines. -/
def entryText (e : Entry) : String :=
  "# ===== " ++ fileRelStr e.dir e.fname ++ " =====\n\n" ++
    (match e.content with
     | some c => c
     | none => placeholderLine (fileRelStr e.dir e.fname)) ++ "\n\n"

/-- The full text written into an artifact. -/
def Artifact.text (a : Artifact) : String :=
  concatStrings (a.entries.map entryText)

/-- combine.py line 67: the immediate files whose names end with one of the
configured extension strings. -/
def matching_files (file_types : List String) (files : List FSFile) : List FSFile :=
  files.filter (fun f => file_types.any (fun ext => List.isSuffixOf ext.data f.name.data))

/-- combine.py lines 73-76: the artifact base name derived from the root's
base name and the directory's relative path (`[]` models `relpath = "."`;
otherwise the separator-joined relative path has `/` replaced by `_` and is
then sanitized). -/
def output_filename (rootName : String) (rel : List String) : String :=
  if rel = [] then rootName
  else rootName ++ "_" ++ sanitize_filename
    (String.mk ((String.intercalate "/" rel).data.map (fun c => if c = '/' then '_' else c)))

/-- The body of the walk loop, combine.py lines 64-95: skip the folder when
its base name matches the ignore predicate or when it has no matching
immediate files, otherwise produce its artifact. -/
def process_folder (rootName output_folder : String)
    (file_types ignore_folders : List String) (v : Visit) : Option Artifact :=
  if should_ignore_folder v.dirName ignore_folders then none
  else if (matching_files file_types v.files).isEmpty then none
  else some { path := output_folder ++ "/" ++ output_filename rootName v.rel ++ ".txt"
              entries := (matching_files file_types v.files).map
                (fun f => ⟨v.rel, f.name, f.content⟩) }

/-- Observable outcome of one run of `combine_files_by_folder`. -/
structure RunResult where
  errorReported : Bool
  outputDirCreated : Bool
  artifacts : List Artifact
deriving DecidableEq, Repr

/-- combine.py lines 43-97. The root is `none` when the root path does not
exist (line 53: report an error and return without any further work);
`outputDirExists` tells whether the output directory already existed
(line 57: it is created exactly when it is missing and the root exists). -/
def combine_files_by_folder (root : Option FSDir) (output_folder : String)
    (file_types ignore_folders : List String) (outputDirExists : Bool) : RunResult :=
  match root with
  | none => { errorReported := true, outputDirCreated := false, artifacts := [] }
  | some r =>
      { errorReported := false
        outputDirCreated := !outputDirExists
        artifacts := (walkDir ignore_folders [] r).filterMap
          (process_folder r.name output_folder file_types ignore_folders) }

/-- combine.py line 128: the default ignore list. -/
def default_ignore : List String := ["node_modules", ".git"]

/-- combine.py lines 118 and 129: `argparse` with `nargs="*"` and
`default=None` yields `None` when `--ignore` is entirely absent and `[]`
when the flag is given with zero values; line 129 replaces only `None` by
the default list. -/
def resolve_ignore (args_ignore : Option (List String)) : List String :=
  match args_ignore with
  | some l => l
  | none => default_ignore

/-! ## Helper lemmas -/

/-- `substrB` decides substring containment. -/
theorem substrB_iff (needle : List Char) (haystack : List Char) :
    substrB needle haystack = true ↔ needle <:+: haystack := by
  induction haystack with
  | nil =>
      rw [substrB, List.isEmpty_iff]
      exact Iff.symm List.infix_nil
  | cons c cs ih =>
      rw [substrB, Bool.or_eq_true, List.isPrefixOf_iff_prefix, ih]
      exact Iff.symm List.infix_cons_iff

/-- The ignore predicate holds iff some ignore token is a substring of the
folder's name. -/
theorem should_ignore_folder_iff (folder_name : String) (ignore_list : List String) :
    should_ignore_folder folder_name ignore_list = true ↔
      ∃ t ∈ ignore_list, t.data <:+: folder_name.data := by
  simp [should_ignore_folder, List.any_eq_true, substrB_iff]

/-- Unfolding equation for `walkDir`. -/
theorem walkDir_mk (ig rel : List String) (n : String) (fs : List FSFile) (ds : List FSDir) :
    walkDir ig rel (.mk n fs ds) = ⟨rel, n, fs⟩ :: walkSubs ig rel ds := by
  rw [walkDir]

/-- Unfolding equation for `walkSubs` on `[]`. -/
theorem walkSubs_nil (ig rel : List String) : walkSubs ig rel [] = [] := by
  rw [walkSubs]

/-- Unfolding equation for `walkSubs` on a cons. -/
theorem walkSubs_cons (ig rel : List String) (d : FSDir) (ds : List FSDir) :
    walkSubs ig rel (d :: ds) =
      (if should_ignore_folder d.name ig then []
       else walkDir ig (rel ++ [d.name]) d) ++ walkSubs ig rel ds := by
  rw [walkSubs]

/-- Every visit the pruned walk emits sits at `rel ++ t` where every segment
of `t` is a non-ignored folder name; visits coming from the subdirectory
walk additionally have `t ≠ []`. -/
theorem walkDir_shape (ig : List String) (d : FSDir) :
    ∀ rel : List String, ∀ v ∈ walkDir ig rel d,
      ∃ t, v.rel = rel ++ t ∧ ∀ s ∈ t, should_ignore_folder s ig = false := by
  refine @FSDir.rec
    (fun d => ∀ rel : List String, ∀ v ∈ walkDir ig rel d,
      ∃ t, v.rel = rel ++ t ∧ ∀ s ∈ t, should_ignore_folder s ig = false)
    (fun ds => ∀ rel : List String, ∀ v ∈ walkSubs ig rel ds,
      ∃ t, v.rel = rel ++ t ∧ t ≠ [] ∧ ∀ s ∈ t, should_ignore_folder s ig = false)
    ?_ ?_ ?_ d
  · intro n fs ds ih rel v hv
    rw [walkDir_mk] at hv
    rcases List.mem_cons.mp hv with h | h
    · exact ⟨[], by simp [h], by simp⟩
    · obtain ⟨t, ht, -, hall⟩ := ih rel v h
      exact ⟨t, ht, hall⟩
  · intro rel v hv
    rw [walkSubs_nil] at hv
    exact absurd hv (List.not_mem_nil v)
  · intro d ds ihd ihs rel v hv
    rw [walkSubs_cons] at hv
    rcases List.mem_append.mp hv with h | h
    · by_cases hig : should_ignore_folder d.name ig
      · simp [hig] at h
      · rw [if_neg hig] at h
        obtain ⟨t, ht, hall⟩ := ihd (rel ++ [d.name]) v h
        refine ⟨d.name :: t, by simpa using ht, by simp, ?_⟩
        intro s hs
        rcases List.mem_cons.mp hs with h1 | h1
        · rw [h1]; exact Bool.of_not_eq_true hig
        · exact hall s h1
    · obtain ⟨t, ht, hne, hall⟩ := ihs rel v h
      exact ⟨t, ht, hne, hall⟩

/-- Every visit emitted while walking a subdirectory list sits strictly
below `rel`, through non-ignored segments only. -/
theorem walkSubs_shape (ig : List String) (ds : List FSDir) :
    ∀ rel : List String, ∀ v ∈ walkSubs ig rel ds,
      ∃ t, v.rel = rel ++ t ∧ t ≠ [] ∧ ∀ s ∈ t, should_ignore_folder s ig = false := by
  induction ds with
  | nil =>
      intro rel v hv
      rw [walkSubs_nil] at hv
      exact absurd hv (List.not_mem_nil v)
  | cons d ds ih =>
      intro rel v hv
      rw [walkSubs_cons] at hv
      rcases List.mem_append.mp hv with h | h
      · by_cases hig : should_ignore_folder d.name ig
        · simp [hig] at h
        · rw [if_neg hig] at h
          obtain ⟨t, ht, hall⟩ := walkDir_shape ig d (rel ++ [d.name]) v h
          refine ⟨d.name :: t, by simpa using ht, by simp, ?_⟩
          intro s hs
          rcases List.mem_cons.mp hs with h1 | h1
          · rw [h1]; exact Bool.of_not_eq_true hig
          · exact hall s h1
      · exact ih rel v h

/-- A visit of the walk whose relative path equals the starting `rel` is the
walk's first visit: the root directory itself. -/
theorem walkDir_rel_self (ig rel : List String) (d : FSDir) (v : Visit)
    (hv : v ∈ walkDir ig rel d) (h : v.rel = rel) :
    v = ⟨rel, d.name, d.files⟩ := by
  obtain ⟨n, fs, ds⟩ := d
  rw [walkDir_mk] at hv
  rcases List.mem_cons.mp hv with h1 | h1
  · rw [h1]; simp [FSDir.name, FSDir.files]
  · obtain ⟨t, ht, hne, -⟩ := walkSubs_shape ig ds rel v h1
    rw [h] at ht
    have hnil : t = [] := by
      have hlen := congrArg List.length ht
      simp at hlen
      exact hlen
    exact absurd hnil hne

/-- Unfolding equation for `dirsAt`. -/
theorem dirsAt_mk (rel : List String) (n : String) (fs : List FSFile) (ds : List FSDir) :
    dirsAt rel (.mk n fs ds) = (rel, FSDir.mk n fs ds) :: dirsAtList rel ds := by
  rw [dirsAt]

/-- Unfolding equation for `dirsAtList` on `[]`. -/
theorem dirsAtList_nil (rel : List String) : dirsAtList rel [] = [] := by
  rw [dirsAtList]

/-- Unfolding equation for `dirsAtList` on a cons. -/
theorem dirsAtList_cons (rel : List String) (d : FSDir) (ds : List FSDir) :
    dirsAtList rel (d :: ds) = dirsAt (rel ++ [d.name]) d ++ dirsAtList rel ds := by
  rw [dirsAtList]

/-- Any directory of the tree either is the tree's own root, or sits at
`rel ++ t` where its own base name is one of the segments of `t` (namely the
last one). -/
theorem dirsAt_shape (d : FSDir) :
    ∀ rel p : List String, ∀ D : FSDir, (p, D) ∈ dirsAt rel d →
      (p = rel ∧ D = d) ∨ ∃ t, p = rel ++ t ∧ D.name ∈ t := by
  refine @FSDir.rec
    (fun d => ∀ rel p : List String, ∀ D : FSDir, (p, D) ∈ dirsAt rel d →
      (p = rel ∧ D = d) ∨ ∃ t, p = rel ++ t ∧ D.name ∈ t)
    (fun ds => ∀ rel p : List String, ∀ D : FSDir, (p, D) ∈ dirsAtList rel ds →
      ∃ t, p = rel ++ t ∧ D.name ∈ t)
    ?_ ?_ ?_ d
  · intro n fs ds ih rel p D hm
    rw [dirsAt_mk] at hm
    rcases List.mem_cons.mp hm with h | h
    · left
      exact ⟨congrArg Prod.fst h, congrArg Prod.snd h⟩
    · right
      exact ih rel p D h
  · intro rel p D hm
    rw [dirsAtList_nil] at hm
    exact absurd hm (List.not_mem_nil _)
  · intro d ds ihd ihs rel p D hm
    rw [dirsAtList_cons] at hm
    rcases List.mem_append.mp hm with h | h
    · rcases ihd (rel ++ [d.name]) p D h with ⟨h1, h2⟩ | ⟨t, h1, h2⟩
      · exact ⟨[d.name], h1, by simp [h2]⟩
      · exact ⟨d.name :: t, by simpa using h1, by simp [h2]⟩
    · exact ihs rel p D h

/-- Inversion for `process_folder`: it yields an artifact exactly when the
folder's name is not ignored and some immediate file matches, and then the
artifact's path and entries are determined. -/
theorem process_folder_eq_some (rootName outF : String) (types ig : List String)
    (v : Visit) (a : Artifact) :
    process_folder rootName outF types ig v = some a ↔
      should_ignore_folder v.dirName ig = false ∧
      matching_files types v.files ≠ [] ∧
      a = ⟨outF ++ "/" ++ output_filename rootName v.rel ++ ".txt",
           (matching_files types v.files).map (fun f => ⟨v.rel, f.name, f.content⟩)⟩ := by
  by_cases hig : should_ignore_folder v.dirName ig
  · simp [process_folder, hig]
  · by_cases hm : (matching_files types v.files).isEmpty
    · simp [process_folder, hig, hm, List.isEmpty_iff.mp hm]
    · have hm' : matching_files types v.files ≠ [] := by
        intro h
        rw [h] at hm
        exact hm rfl
      simp [process_folder, hig, hm, hm', eq_comm]

/-- Membership in the run's artifact list is production by some visit of the
pruned walk. -/
theorem artifacts_mem (r : FSDir) (outF : String) (types ig : List String) (b : Bool)
    (a : Artifact) :
    a ∈ (combine_files_by_folder (some r) outF types ig b).artifacts ↔
      ∃ v ∈ walkDir ig [] r, process_folder r.name outF types ig v = some a := by
  simp [combine_files_by_folder, List.mem_filterMap]

/-- A member of a string list occurs contiguously inside the concatenation. -/
theorem mem_concatStrings_sub (s : String) (l : List String) (h : s ∈ l) :
    s.data <:+: (concatStrings l).data := by
  induction l with
  | nil => exact absurd h (List.not_mem_nil s)
  | cons x xs ih =>
      rcases List.mem_cons.mp h with h1 | h1
      · subst h1
        exact ⟨[], (concatStrings xs).data, by simp [concatStrings]⟩
      · obtain ⟨u, w, hw⟩ := ih h1
        exact ⟨x.data ++ u, w, by simp [concatStrings, ← hw]⟩

/-- The decoded content of an entry occurs contiguously in the entry's text. -/
theorem entry_content_sub (e : Entry) (c : String) (h : e.content = some c) :
    c.data <:+: (entryText e).data := by
  refine ⟨("# ===== " ++ fileRelStr e.dir e.fname ++ " =====\n\n").data, "\n\n".data, ?_⟩
  simp [entryText, h]

/-- The placeholder line of an undecodable entry occurs contiguously in the
entry's text. -/
theorem entry_placeholder_sub (e : Entry) (h : e.content = none) :
    (placeholderLine (fileRelStr e.dir e.fname)).data <:+: (entryText e).data := by
  refine ⟨("# ===== " ++ fileRelStr e.dir e.fname ++ " =====\n\n").data, "\n\n".data, ?_⟩
  simp [entryText, h]

/-- With an empty ignore list the pruned walk visits exactly the directories
of the tree, in order. -/
theorem walk_empty_ignore_all (d : FSDir) :
    ∀ rel : List String,
      (walkDir [] rel d).map Visit.rel = (dirsAt rel d).map Prod.fst := by
  refine @FSDir.rec
    (fun d => ∀ rel : List String,
      (walkDir [] rel d).map Visit.rel = (dirsAt rel d).map Prod.fst)
    (fun ds => ∀ rel : List String,
      (walkSubs [] rel ds).map Visit.rel = (dirsAtList rel ds).map Prod.fst)
    ?_ ?_ ?_ d
  · intro n fs ds ih rel
    rw [walkDir_mk, dirsAt_mk]
    simp only [List.map_cons]
    rw [ih rel]
  · intro rel
    rw [walkSubs_nil, dirsAtList_nil]
    rfl
  · intro d ds ihd ihs rel
    rw [walkSubs_cons, dirsAtList_cons]
    have hig : should_ignore_folder d.name [] = false := rfl
    rw [if_neg (by simp [hig])]
    simp only [List.map_append]
    rw [ihd (rel ++ [d.name]), ihs rel]

/-! ## Claims -/

/-- C4: if the root path does not exist the run reports an error, creates no
output directory and writes zero artifacts; if the root exists this error
branch is not taken. -/
theorem c4_root_not_found (outF : String) (types ig : List String) (b : Bool) :
    combine_files_by_folder none outF types ig b =
      { errorReported := true, outputDirCreated := false, artifacts := [] } ∧
    ∀ r : FSDir, (combine_files_by_folder (some r) outF types ig b).errorReported = false :=
  ⟨rfl, fun _ => rfl⟩

/-- C6: the ignore predicate holds iff some ignore token is a substring of
the folder's base name — substring containment, not exact segment match, as
witnessed by token "temp" matching folder "temporary". -/
theorem c6_ignore_predicate (folder_name : String) (ignore_tokens : List String) :
    (should_ignore_folder folder_name ignore_tokens = true ↔
      ∃ t ∈ ignore_tokens, t.data <:+: folder_name.data) ∧
    should_ignore_folder "temporary" ["temp"] = true :=
  ⟨should_ignore_folder_iff folder_name ignore_tokens, rfl⟩

/-- C8: with `--ignore` absent the effective ignore list is
`[node_modules, .git]`; with `--ignore` supplied with zero values it is
empty, no folder name is ever ignored, and the walk visits every directory
of the tree. -/
theorem c8_ignore_flag_semantics :
    resolve_ignore none = ["node_modules", ".git"] ∧
    resolve_ignore (some []) = [] ∧
    (∀ name : String, should_ignore_folder name (resolve_ignore (some [])) = false) ∧
    (∀ (d : FSDir) (rel : List String),
      (walkDir (resolve_ignore (some [])) rel d).map Visit.rel =
        (dirsAt rel d).map Prod.fst) :=
  ⟨rfl, rfl, fun _ => rfl, fun d rel => walk_empty_ignore_all d rel⟩

/-- C2: a visited, non-ignored directory yields an artifact of the run iff
it has at least one immediate file whose name ends with a configured
extension. -/
theorem c2_artifact_iff_matching
    (root : FSDir) (outF : String) (types ig : List String) (b : Bool) (v : Visit)
    (hv : v ∈ walkDir ig [] root)
    (hni : should_ignore_folder v.dirName ig = false) :
    (∃ a ∈ (combine_files_by_folder (some root) outF types ig b).artifacts,
        process_folder root.name outF types ig v = some a) ↔
      matching_files types v.files ≠ [] := by
  constructor
  · rintro ⟨a, -, ha⟩
    exact ((process_folder_eq_some _ _ _ _ _ _).mp ha).2.1
  · intro hm
    refine ⟨⟨outF ++ "/" ++ output_filename root.name v.rel ++ ".txt",
      (matching_files types v.files).map (fun f => ⟨v.rel, f.name, f.content⟩)⟩, ?_, ?_⟩
    · rw [artifacts_mem]
      exact ⟨v, hv, (process_folder_eq_some _ _ _ _ _ _).mpr ⟨hni, hm, rfl⟩⟩
    · exact (process_folder_eq_some _ _ _ _ _ _).mpr ⟨hni, hm, rfl⟩

/-- Witness for C2 at a concrete one-directory tree. -/
theorem c2_witness :
    (⟨[], "proj", [⟨"a.js", some "A"⟩, ⟨"b.txt", some "B"⟩]⟩ : Visit) ∈
        walkDir [] [] (.mk "proj" [⟨"a.js", some "A"⟩, ⟨"b.txt", some "B"⟩] []) ∧
    ((∃ a ∈ (combine_files_by_folder
          (some (.mk "proj" [⟨"a.js", some "A"⟩, ⟨"b.txt", some "B"⟩] []))
          "out" [".js"] [] false).artifacts,
        process_folder "proj" "out" [".js"] []
          ⟨[], "proj", [⟨"a.js", some "A"⟩, ⟨"b.txt", some "B"⟩]⟩ = some a) ↔
      matching_files [".js"] [⟨"a.js", some "A"⟩, ⟨"b.txt", some "B"⟩] ≠ []) :=
  ⟨by decide, c2_artifact_iff_matching
    (.mk "proj" [⟨"a.js", some "A"⟩, ⟨"b.txt", some "B"⟩] []) "out" [".js"] [] false
    ⟨[], "proj", [⟨"a.js", some "A"⟩, ⟨"b.txt", some "B"⟩]⟩ (by decide) (by decide)⟩

/-- C5: a retained directory's artifact path is
`output_folder/(B ++ ".txt")` where `B` is the root's base name for the root
itself and otherwise the root's base name, `_`, and the sanitized
separator-to-underscore rewrite of the relative path; sanitization maps
every character that is not alphanumeric, `-` or `_` to `_`. -/
theorem c5_output_path
    (rootName outF : String) (types ig : List String) (v : Visit) (a : Artifact)
    (h : process_folder rootName outF types ig v = some a) :
    a.path = outF ++ "/" ++ output_filename rootName v.rel ++ ".txt" ∧
    output_filename rootName [] = rootName ∧
    (v.rel ≠ [] → output_filename rootName v.rel =
      rootName ++ "_" ++ sanitize_filename
        (String.mk ((String.intercalate "/" v.rel).data.map
          (fun c => if c = '/' then '_' else c)))) ∧
    (∀ s : String, sanitize_filename s =
      String.mk (s.data.map
        (fun c => if c.isAlphanum || c = '-' || c = '_' then c else '_'))) := by
  refine ⟨?_, by simp [output_filename], fun hne => by simp [output_filename, hne],
    fun _ => rfl⟩
  have hinv := (process_folder_eq_some rootName outF types ig v a).mp h
  rw [hinv.2.2]

/-- Witness for C5 at a concrete subdirectory visit. -/
theorem c5_witness :
    (⟨"out/proj_src.txt", [⟨["src"], "a.js", some "A"⟩]⟩ : Artifact).path =
      "out" ++ "/" ++ output_filename "proj" ["src"] ++ ".txt" ∧
    output_filename "proj" [] = "proj" ∧
    ((["src"] : List String) ≠ [] → output_filename "proj" ["src"] =
      "proj" ++ "_" ++ sanitize_filename
        (String.mk ((String.intercalate "/" ["src"]).data.map
          (fun c => if c = '/' then '_' else c)))) ∧
    (∀ s : String, sanitize_filename s =
      String.mk (s.data.map
        (fun c => if c.isAlphanum || c = '-' || c = '_' then c else '_'))) :=
  c5_output_path "proj" "out" [".js"] [] ⟨["src"], "src", [⟨"a.js", some "A"⟩]⟩
    ⟨"out/proj_src.txt", [⟨["src"], "a.js", some "A"⟩]⟩ rfl

/-- C9: the text of an artifact is exactly the concatenation, over the
matching files in order, of the header line with the file's root-relative
path, a blank line, the file's content (or the encoding-issue placeholder),
and two newline characters — also after the last file. -/
theorem c9_entry_format
    (rootName outF : String) (types ig : List String) (v : Visit) (a : Artifact)
    (h : process_folder rootName outF types ig v = some a) :
    a.text = concatStrings ((matching_files types v.files).map (fun f =>
      "# ===== " ++ String.intercalate "/" (v.rel ++ [f.name]) ++ " =====\n\n" ++
      (match f.content with
       | some c => c
       | none => "# Warning: Content of \x27" ++
           String.intercalate "/" (v.rel ++ [f.name]) ++
           "\x27 could not be included due to encoding issues.\n") ++ "\n\n")) := by
  have hinv := (process_folder_eq_some rootName outF types ig v a).mp h
  rw [hinv.2.2]
  show concatStrings _ = _
  rw [List.map_map]
  rfl

/-- Witness for C9 at a concrete visit with one decodable and one
undecodable matching file. -/
theorem c9_witness :
    (⟨"out/p.txt", [⟨[], "a.py", some "A"⟩, ⟨[], "bad.py", none⟩]⟩ : Artifact).text =
      concatStrings ((matching_files [".py"]
          [⟨"a.py", some "A"⟩, ⟨"bad.py", none⟩]).map (fun f =>
        "# ===== " ++ String.intercalate "/" (([] : List String) ++ [f.name]) ++
          " =====\n\n" ++
        (match f.content with
         | some c => c
         | none => "# Warning: Content of \x27" ++
             String.intercalate "/" (([] : List String) ++ [f.name]) ++
             "\x27 could not be included due to encoding issues.\n") ++ "\n\n")) :=
  c9_entry_format "p" "out" [".py"] []
    ⟨[], "p", [⟨"a.py", some "A"⟩, ⟨"bad.py", none⟩]⟩
    ⟨"out/p.txt", [⟨[], "a.py", some "A"⟩, ⟨[], "bad.py", none⟩]⟩ rfl

/-- C10: when the extension list contains the empty string, every immediate
file of a visited non-ignored directory matches, so any such directory with
at least one file yields an artifact containing all its immediate files. -/
theorem c10_empty_extension_matches_all
    (root : FSDir) (outF : String) (types ig : List String) (b : Bool) (v : Visit)
    (hty : "" ∈ types)
    (hv : v ∈ walkDir ig [] root)
    (hni : should_ignore_folder v.dirName ig = false)
    (hne : v.files ≠ []) :
    matching_files types v.files = v.files ∧
    ∃ a ∈ (combine_files_by_folder (some root) outF types ig b).artifacts,
      process_folder root.name outF types ig v = some a ∧
      a.entries = v.files.map (fun f => ⟨v.rel, f.name, f.content⟩) := by
  have hall : matching_files types v.files = v.files := by
    unfold matching_files
    rw [List.filter_eq_self]
    intro f _
    rw [List.any_eq_true]
    refine ⟨"", hty, ?_⟩
    show List.isSuffixOf [] f.name.data = true
    simp
  refine ⟨hall, ?_⟩
  have hm : matching_files types v.files ≠ [] := by rw [hall]; exact hne
  have hps := (process_folder_eq_some root.name outF types ig v
    ⟨outF ++ "/" ++ output_filename root.name v.rel ++ ".txt",
     (matching_files types v.files).map (fun f => ⟨v.rel, f.name, f.content⟩)⟩).mpr
    ⟨hni, hm, rfl⟩
  refine ⟨_, (artifacts_mem root outF types ig b _).mpr ⟨v, hv, hps⟩, hps, ?_⟩
  show (matching_files types v.files).map _ = _
  rw [hall]

/-- Witness for C10 at a concrete tree whose only file matches no real
extension. -/
theorem c10_witness :
    matching_files [""] [⟨"x", some "X"⟩] = [⟨"x", some "X"⟩] ∧
    ∃ a ∈ (combine_files_by_folder (some (.mk "p" [⟨"x", some "X"⟩] []))
        "out" [""] [] false).artifacts,
      process_folder "p" "out" [""] [] ⟨[], "p", [⟨"x", some "X"⟩]⟩ = some a ∧
      a.entries = [⟨"x", some "X"⟩].map
        (fun f : FSFile => (⟨[], f.name, f.content⟩ : Entry)) :=
  c10_empty_extension_matches_all (.mk "p" [⟨"x", some "X"⟩] []) "out" [""] [] false
    ⟨[], "p", [⟨"x", some "X"⟩]⟩ (by decide) (by decide) (by decide) (by decide)

/-- The directory recorded in every entry of an artifact is the producing
visit's relative path. -/
theorem artifact_entry_dir (rootName outF : String) (types ig : List String)
    (v : Visit) (a : Artifact) (e : Entry)
    (h : process_folder rootName outF types ig v = some a) (he : e ∈ a.entries) :
    e.dir = v.rel := by
  have hinv := (process_folder_eq_some rootName outF types ig v a).mp h
  rw [hinv.2.2] at he
  simp only [List.mem_map] at he
  obtain ⟨f, -, hf⟩ := he
  rw [← hf]

/-- A common prefix of two appended strings with equal flanks is cancelled:
used to show the artifact path determines the output base name. -/
theorem outPath_inj (outF b1 b2 : String)
    (h : outF ++ "/" ++ b1 ++ ".txt" = outF ++ "/" ++ b2 ++ ".txt") : b1 = b2 := by
  have hd := congrArg String.data h
  simp only [String.data_append] at hd
  have h1 := List.append_cancel_right hd
  have h2 := List.append_cancel_left h1
  have := congrArg String.mk h2
  simpa using this

/-- C1 (counterexample): with ignore token "temp" and a root directory whose
base name is "temp", the file sub/a.js lies under the ignored root yet
appears in an artifact: the subdirectory survives the walk because only the
root's own processing is skipped. -/
theorem c1_counterexample :
    should_ignore_folder
      (FSDir.mk "temp" [] [.mk "sub" [⟨"a.js", some "code"⟩] []]).name ["temp"] = true ∧
    ∃ a ∈ (combine_files_by_folder
        (some (.mk "temp" [] [.mk "sub" [⟨"a.js", some "code"⟩] []]))
        "out" [".js"] ["temp"] false).artifacts,
      ∃ e ∈ a.entries, e.dir = ["sub"] ∧ e.fname = "a.js" :=
  ⟨rfl, ⟨"out/temp_sub.txt", [⟨["sub"], "a.js", some "code"⟩]⟩, by decide,
    ⟨["sub"], "a.js", some "code"⟩, by decide, rfl, rfl⟩

/-- C1 (amended): for every non-root directory D of the tree whose base name
matches an ignore token, no file under D (at any depth) appears in any
artifact; when the root's own base name matches, the root's immediate files
are excluded (no artifact entry sits directly in the root), though files of
its non-ignored subtrees may still appear. -/
theorem c1_ignored_dirs_pruned
    (root : FSDir) (outF : String) (types ig : List String) (b : Bool) :
    (∀ (p : List String) (D : FSDir), (p, D) ∈ dirsAt [] root → p ≠ [] →
      should_ignore_folder D.name ig = true →
      ∀ a ∈ (combine_files_by_folder (some root) outF types ig b).artifacts,
        ∀ e ∈ a.entries, ¬ (p <+: e.dir)) ∧
    (should_ignore_folder root.name ig = true →
      ∀ a ∈ (combine_files_by_folder (some root) outF types ig b).artifacts,
        ∀ e ∈ a.entries, e.dir ≠ []) := by
  constructor
  · intro p D hmem hpne hig a ha e he hpre
    obtain ⟨v, hv, hps⟩ := (artifacts_mem root outF types ig b a).mp ha
    have hedir : e.dir = v.rel := artifact_entry_dir _ _ _ _ v a e hps he
    rcases dirsAt_shape root [] p D hmem with ⟨h1, -⟩ | ⟨t, h1, h2⟩
    · exact hpne h1
    · have hDp : D.name ∈ p := by rw [h1]; simpa using h2
      obtain ⟨t', ht', hall⟩ := walkDir_shape ig root [] v hv
      have hDv : D.name ∈ v.rel := hedir ▸ hpre.subset hDp
      have hDt : D.name ∈ t' := by
        rw [ht'] at hDv
        simpa using hDv
      exact absurd (hall D.name hDt) (by simp [hig])
  · intro hig a ha e he hdir
    obtain ⟨v, hv, hps⟩ := (artifacts_mem root outF types ig b a).mp ha
    have hedir : e.dir = v.rel := artifact_entry_dir _ _ _ _ v a e hps he
    have hvrel : v.rel = [] := by rw [← hedir, hdir]
    have hvis := walkDir_rel_self ig [] root v hv hvrel
    have hinv := (process_folder_eq_some _ _ _ _ _ _).mp hps
    have hname : v.dirName = root.name := by rw [hvis]
    rw [hname, hig] at hinv
    exact Bool.noConfusion hinv.1

/-- Witness for the amended C1 at a concrete tree with an ignored
subdirectory "temp" next to a retained "src". -/
theorem c1_witness :
    ∀ a ∈ (combine_files_by_folder
        (some (.mk "r" [] [.mk "temp" [⟨"a.js", some "x"⟩] [],
                           .mk "src" [⟨"b.js", some "y"⟩] []]))
        "out" [".js"] ["temp"] false).artifacts,
      ∀ e ∈ a.entries, ¬ (["temp"] <+: e.dir) :=
  (c1_ignored_dirs_pruned
    (.mk "r" [] [.mk "temp" [⟨"a.js", some "x"⟩] [], .mk "src" [⟨"b.js", some "y"⟩] []])
    "out" [".js"] ["temp"] false).1
    ["temp"] (.mk "temp" [⟨"a.js", some "x"⟩] [])
    (by simp [dirsAt_mk, dirsAtList_cons, dirsAtList_nil, FSDir.name])
    (by simp) rfl

/-- C3: an undecodable matching file never aborts the run; the directory's
artifact is still produced, its text contains the placeholder line for the
undecodable file, and the verbatim content of every decodable matching file. -/
theorem c3_decode_failure_tolerated
    (root : FSDir) (outF : String) (types ig : List String) (b : Bool)
    (v : Visit) (f : FSFile)
    (hv : v ∈ walkDir ig [] root)
    (hni : should_ignore_folder v.dirName ig = false)
    (hf : f ∈ matching_files types v.files)
    (hbad : f.content = none) :
    ∃ a ∈ (combine_files_by_folder (some root) outF types ig b).artifacts,
      process_folder root.name outF types ig v = some a ∧
      (placeholderLine (fileRelStr v.rel f.name)).data <:+: a.text.data ∧
      ∀ g ∈ matching_files types v.files, ∀ c : String,
        g.content = some c → c.data <:+: a.text.data := by
  have hm : matching_files types v.files ≠ [] := by
    intro h0
    rw [h0] at hf
    exact absurd hf (List.not_mem_nil f)
  have hps := (process_folder_eq_some root.name outF types ig v
    ⟨outF ++ "/" ++ output_filename root.name v.rel ++ ".txt",
     (matching_files types v.files).map (fun g => ⟨v.rel, g.name, g.content⟩)⟩).mpr
    ⟨hni, hm, rfl⟩
  refine ⟨_, (artifacts_mem root outF types ig b _).mpr ⟨v, hv, hps⟩, hps, ?_, ?_⟩
  · have hmem : entryText ⟨v.rel, f.name, f.content⟩ ∈
        ((matching_files types v.files).map
          (fun g : FSFile => (⟨v.rel, g.name, g.content⟩ : Entry))).map entryText :=
      List.mem_map_of_mem entryText (List.mem_map_of_mem _ hf)
    have hsub := mem_concatStrings_sub _ _ hmem
    have hph := entry_placeholder_sub ⟨v.rel, f.name, f.content⟩ hbad
    exact hph.trans hsub
  · intro g hg c hc
    have hmem : entryText ⟨v.rel, g.name, g.content⟩ ∈
        ((matching_files types v.files).map
          (fun g : FSFile => (⟨v.rel, g.name, g.content⟩ : Entry))).map entryText :=
      List.mem_map_of_mem entryText (List.mem_map_of_mem _ hg)
    have hsub := mem_concatStrings_sub _ _ hmem
    have hcc := entry_content_sub ⟨v.rel, g.name, g.content⟩ c hc
    exact hcc.trans hsub

/-- Witness for C3 at a concrete root with one decodable and one
undecodable matching file. -/
theorem c3_witness :
    ∃ a ∈ (combine_files_by_folder
        (some (.mk "p" [⟨"good.py", some "G"⟩, ⟨"bad.py", none⟩] []))
        "out" [".py"] [] false).artifacts,
      process_folder "p" "out" [".py"] []
        ⟨[], "p", [⟨"good.py", some "G"⟩, ⟨"bad.py", none⟩]⟩ = some a ∧
      (placeholderLine (fileRelStr [] "bad.py")).data <:+: a.text.data ∧
      ∀ g ∈ matching_files [".py"] [⟨"good.py", some "G"⟩, ⟨"bad.py", none⟩],
        ∀ c : String, g.content = some c → c.data <:+: a.text.data :=
  c3_decode_failure_tolerated
    (.mk "p" [⟨"good.py", some "G"⟩, ⟨"bad.py", none⟩] []) "out" [".py"] [] false
    ⟨[], "p", [⟨"good.py", some "G"⟩, ⟨"bad.py", none⟩]⟩ ⟨"bad.py", none⟩
    (by decide) (by decide) (by decide) rfl

/-- C7 (counterexample): two distinct retained directories, "a.b" and "a,b",
sanitize to the same output base name and therefore write to the same
artifact path within one run. -/
theorem c7_counterexample :
    ∃ a1 a2 : Artifact,
      (combine_files_by_folder
        (some (.mk "r" [] [.mk "a.b" [⟨"x.js", some "1"⟩] [],
                           .mk "a,b" [⟨"y.js", some "2"⟩] []]))
        "out" [".js"] [] false).artifacts = [a1, a2] ∧
      a1.path = a2.path ∧ a1.entries ≠ a2.entries :=
  ⟨⟨"out/r_a_b.txt", [⟨["a.b"], "x.js", some "1"⟩]⟩,
   ⟨"out/r_a_b.txt", [⟨["a,b"], "y.js", some "2"⟩]⟩,
   by decide⟩

/-- C7 (amended): each artifact is produced by exactly one visit, and two
retained directories write to distinct artifact paths whenever their derived
output base names are distinct — collisions occur exactly when sanitization
identifies the two relative paths. -/
theorem c7_distinct_names_distinct_paths
    (rootName outF : String) (types ig : List String)
    (v1 v2 : Visit) (a1 a2 : Artifact)
    (h1 : process_folder rootName outF types ig v1 = some a1)
    (h2 : process_folder rootName outF types ig v2 = some a2)
    (hne : output_filename rootName v1.rel ≠ output_filename rootName v2.rel) :
    a1.path ≠ a2.path := by
  have e1 := ((process_folder_eq_some _ _ _ _ _ _).mp h1).2.2
  have e2 := ((process_folder_eq_some _ _ _ _ _ _).mp h2).2.2
  rw [e1, e2]
  intro h
  exact hne (outPath_inj outF _ _ h)

/-- Witness for the amended C7: the root visit and a subdirectory visit have
distinct base names, hence distinct artifact paths. -/
theorem c7_witness :
    output_filename "r" (["a"] : List String) ≠ output_filename "r" ([] : List String) ∧
    (⟨"out/r_a.txt", [⟨["a"], "x.js", some "1"⟩]⟩ : Artifact).path ≠
      (⟨"out/r.txt", [⟨[], "y.js", some "2"⟩]⟩ : Artifact).path :=
  ⟨by decide, c7_distinct_names_distinct_paths "r" "out" [".js"] []
    ⟨["a"], "a", [⟨"x.js", some "1"⟩]⟩ ⟨[], "r", [⟨"y.js", some "2"⟩]⟩
    ⟨"out/r_a.txt", [⟨["a"], "x.js", some "1"⟩]⟩
    ⟨"out/r.txt", [⟨[], "y.js", some "2"⟩]⟩
    rfl rfl (by decide)⟩
